import Mathlib

/-
Verification of the Foldseek annotation script (`foldseek_anno.py`).

The script's pure fragments (string parsing, identifier extraction, row
merging) are embedded directly; its effectful fragments (HTTP fetch with
retries, the asyncio orchestrator, the semaphore) are embedded as explicit
functions over a response oracle, as an association list built in an
arbitrary completion order, and as a step relation on task states.
-/

namespace FoldseekAnno

/- ### Python string primitives

Faithful models of the `str` operations the script uses, over `List Char`
(`String.data`).  `pyIsSpace` is Python's default `str.strip` / `str.split()`
whitespace set. -/

def pyIsSpace (c : Char) : Bool :=
  c == ' ' || c == '\t' || c == '\n' || c == '\r' || c == '\x0b' || c == '\x0c'

/-- Python `s.strip()`. -/
def pyStrip (s : String) : String :=
  String.mk (((s.data.dropWhile pyIsSpace).reverse.dropWhile pyIsSpace).reverse)

/-- Python `s.split('\t')` on the character list: split at every tab. -/
def splitTabAux : List Char → List (List Char)
  | [] => [[]]
  | '\t' :: rest => [] :: splitTabAux rest
  | c :: rest =>
    match splitTabAux rest with
    | [] => [[c]]
    | f :: fs => (c :: f) :: fs

def pySplitTab (s : String) : List String :=
  (splitTabAux s.data).map String.mk

/-- `line.strip().split('\t')` — how every loop in the script parses a row. -/
def lineFields (line : String) : List String :=
  pySplitTab (pyStrip line)

/- ### AlphaFold identifier rule (extract_unique_ids, lines 178-182;
   merge_alphafold_annotations, line 248) -/

/-- Python `target.split("-F1")[0]`: the prefix before the first `"-F1"`
(the whole string when absent). -/
def afTakeBeforeF1 : List Char → List Char
  | '-' :: 'F' :: '1' :: _ => []
  | c :: rest => c :: afTakeBeforeF1 rest
  | [] => []

/-- Python `"-F1" in target`. -/
def afContainsF1 : List Char → Bool
  | '-' :: 'F' :: '1' :: _ => true
  | _ :: rest => afContainsF1 rest
  | [] => false

/-- Python `s.replace("AF-", "")`: every non-overlapping occurrence of
`"AF-"` is removed, scanning left to right. -/
def afRemoveAF : List Char → List Char
  | 'A' :: 'F' :: '-' :: rest => afRemoveAF rest
  | c :: rest => c :: afRemoveAF rest
  | [] => []

/-- `target.split("-F1")[0].replace("AF-", "")` — the identifier the script
derives from an AlphaFold target token (same expression at extraction and at
merge time). -/
def afIdent (target : String) : String :=
  String.mk (afRemoveAF (afTakeBeforeF1 target.data))

/-- The extraction guard: `target.startswith("AF-") and "-F1" in target`. -/
def afMatches (target : String) : Bool :=
  "AF-".data.isPrefixOf target.data && afContainsF1 target.data

/-- Modelled from the spec: "identifier = substring between them (strip
leading `AF-`, cut at first `-F1`)" — strips only the leading `AF-` prefix,
once.  Kept separate from `afIdent` (the source's rule) for comparison. -/
def stripLeadingAF : List Char → List Char
  | 'A' :: 'F' :: '-' :: rest => rest
  | l => l

/-- Modelled from the spec: the spec's AlphaFold identifier rule. -/
def specAlphafoldIdent (target : String) : String :=
  String.mk (afTakeBeforeF1 (stripLeadingAF target.data))

/- ### MGnify identifier rule (extract_unique_ids, lines 184-195;
   merge_mgnify_annotations, lines 266-275) -/

/-- Python `target[target.find("MGYP"):]` guarded by `"MGYP" in target`:
`some` of the suffix starting at the first `"MGYP"` occurrence, `none` when
absent. -/
def mgFromMGYP : List Char → Option (List Char)
  | [] => none
  | c :: rest =>
    if "MGYP".data.isPrefixOf (c :: rest) then some (c :: rest)
    else mgFromMGYP rest

/-- Python `s.split('.')[0]`. -/
def mgTruncDot (l : List Char) : List Char := l.takeWhile (fun c => c != '.')

/-- Python `s.split('_')[0]`. -/
def mgTruncUnd (l : List Char) : List Char := l.takeWhile (fun c => c != '_')

/-- Python `s.split()[0]` for the call sites of the script, where `s` always
starts with `'M'` (so the token list is never empty; on the empty string
Python would raise `IndexError`, which is unreachable here). -/
def mgSplitWsFirst (l : List Char) : List Char :=
  (l.dropWhile pyIsSpace).takeWhile (fun c => !pyIsSpace c)

/-- `protein_id.split('.')[0].split('_')[0].split()[0]` (source line 192 and
line 273). -/
def mgTrunc (l : List Char) : List Char :=
  mgSplitWsFirst (mgTruncUnd (mgTruncDot l))

/-- The identifier a target token yields under the MGnify rule before the
final guard: `none` when `"MGYP"` does not occur in the token. -/
def mgIdentOf (target : String) : Option String :=
  (mgFromMGYP target.data).map (fun l => String.mk (mgTrunc l))

/-- The final guard of the extractor (source line 194):
`protein_id.startswith("MGYP") and len(protein_id) > 4`. -/
def mgGuard (pid : String) : Bool :=
  "MGYP".data.isPrefixOf pid.data && decide (4 < pid.length)

/-- Modelled from the spec: "truncated at the first `.`, `_`, or whitespace
character (first occurrence of any wins)". -/
def specMgnifyTrunc (l : List Char) : List Char :=
  l.takeWhile (fun c => !(c == '.' || c == '_' || pyIsSpace c))

/- ### extract_unique_ids (lines 168-197) -/

/-- Lexicographic comparison of character lists by code point — the order
Python's `sorted` uses on strings.  (The library order on `String` is the
same order, but its comparison function does not reduce in the kernel, so
the executable definition is spelled out.) -/
def strLexLe : List Char → List Char → Bool
  | [], _ => true
  | _ :: _, [] => false
  | a :: as, b :: bs =>
    if a.toNat = b.toNat then strLexLe as bs else decide (a.toNat < b.toNat)

/-- Python's `≤` on strings: lexicographic by code point. -/
def pyLe (a b : String) : Prop := strLexLe a.data b.data = true

instance : DecidableRel pyLe := fun _ _ => instDecidableEqBool _ true

instance : IsTotal String pyLe := by
  constructor
  intro s t
  show strLexLe s.data t.data = true ∨ strLexLe t.data s.data = true
  generalize s.data = a
  generalize t.data = b
  induction a generalizing b with
  | nil => left; rfl
  | cons x xs ih =>
    cases b with
    | nil => right; rfl
    | cons y ys =>
      by_cases hxy : x.toNat = y.toNat
      · rcases ih ys with h | h
        · left; simp [strLexLe, hxy, h]
        · right; simp [strLexLe, hxy.symm, h]
      · rcases Nat.lt_or_ge x.toNat y.toNat with h | h
        · left; simp [strLexLe, hxy, h]
        · right
          have hyx : y.toNat ≠ x.toNat := fun he => hxy he.symm
          simp [strLexLe, hyx]
          omega

instance : IsTrans String pyLe := by
  constructor
  intro s t u hab hbc
  show strLexLe s.data u.data = true
  replace hab : strLexLe s.data t.data = true := hab
  replace hbc : strLexLe t.data u.data = true := hbc
  generalize s.data = a at *
  generalize t.data = b at *
  generalize u.data = c at *
  induction a generalizing b c with
  | nil => rfl
  | cons x xs ih =>
    cases b with
    | nil => simp [strLexLe] at hab
    | cons y ys =>
      cases c with
      | nil => simp [strLexLe] at hbc
      | cons z zs =>
        simp only [strLexLe] at hab hbc ⊢
        by_cases hxy : x.toNat = y.toNat <;> by_cases hyz : y.toNat = z.toNat
        · rw [if_pos hxy] at hab
          rw [if_pos hyz] at hbc
          rw [if_pos (hxy.trans hyz)]
          exact ih _ hab _ hbc
        · rw [if_pos hxy] at hab
          rw [if_neg hyz, decide_eq_true_eq] at hbc
          rw [if_neg (show ¬x.toNat = z.toNat by omega), decide_eq_true_eq]
          omega
        · rw [if_neg hxy, decide_eq_true_eq] at hab
          rw [if_pos hyz] at hbc
          rw [if_neg (show ¬x.toNat = z.toNat by omega), decide_eq_true_eq]
          omega
        · rw [if_neg hxy, decide_eq_true_eq] at hab
          rw [if_neg hyz, decide_eq_true_eq] at hbc
          rw [if_neg (show ¬x.toNat = z.toNat by omega), decide_eq_true_eq]
          omega

/-- The identifiers one parsed line contributes to the query set (the body
of the loop in `extract_unique_ids`). -/
def extractLineIds (database : String) (line : String) : List String :=
  let parts := lineFields line
  if 2 ≤ parts.length then
    let target := parts.getD 1 ""
    if database = "alphafold" then
      if afMatches target then [afIdent target] else []
    else if database = "mgnify" then
      match mgIdentOf target with
      | some pid => if mgGuard pid then [pid] else []
      | none => []
    else []
  else []

/-- `extract_unique_ids`: collect ids into a set, return `sorted(ids)`.
`sorted(set(...))` is modelled as sorting the deduplicated list — the same
distinct elements in increasing lexicographic order. -/
def extract_unique_ids (m8_lines : List String) (database : String) : List String :=
  (((m8_lines.map (extractLineIds database)).flatten).dedup).insertionSort pyLe

/- ### Fetch adapters with retry (fetch_alphafold_description, lines 15-33;
   fetch_mgnify_from_web, lines 35-166)

Each is modelled over a response oracle `Nat → ...Attempt` giving what the
network returns on each attempt index, and yields the trace of externally
observable events (adapter calls and `asyncio.sleep` delays) together with
the returned value (`none` models Python's implicit `None` when the
`for attempt in range(retries)` loop body never runs, i.e. `retries = 0`). -/

inductive FetchEvent
  | call
  | sleep (secs : Nat)
  deriving DecidableEq

/-- What `await response.json()` produced on a 200 response: a JSON list
(each element abstracted to its optional `"uniprotDescription"` value) or a
non-list value. -/
inductive AFBody
  | jsonList (items : List (Option String))
  | nonList
  deriving DecidableEq

/-- One attempt's outcome at the AlphaFold adapter's network boundary. -/
inductive AFAttempt
  | ok (body : AFBody)
  | status (code : Nat)
  | exc (msg : String)
  deriving DecidableEq

/-- Lines 24-27: `isinstance(data, list) and data` then
`data[0].get("uniprotDescription", "No description found")`. -/
def afInterpret : AFBody → String
  | AFBody.jsonList [] => "No data"
  | AFBody.jsonList (item :: _) => item.getD "No description found"
  | AFBody.nonList => "No data"

/-- The retry loop of `fetch_alphafold_description` from loop index
`attempt`: a 200 response returns the interpreted body; any non-200 status
returns `"Error {status}"` at once; an exception returns
`"Failed: {e}"` on the last attempt and otherwise sleeps 1 second and
retries.  (The Python function also returns `uniprot_id` alongside the
description; the identifier is threaded unchanged, so only the description
is modelled.) -/
def fetchAFGo (o : Nat → AFAttempt) (retries : Nat) : Nat → Nat → List FetchEvent × Option String
  | _, 0 => ([], none)
  | attempt, fuel + 1 =>
    if attempt < retries then
      match o attempt with
      | AFAttempt.ok body => ([FetchEvent.call], some (afInterpret body))
      | AFAttempt.status code => ([FetchEvent.call], some ("Error " ++ Nat.repr code))
      | AFAttempt.exc msg =>
        if attempt = retries - 1 then ([FetchEvent.call], some ("Failed: " ++ msg))
        else
          let rest := fetchAFGo o retries (attempt + 1) fuel
          (FetchEvent.call :: FetchEvent.sleep 1 :: rest.1, rest.2)
    else ([], none)

def fetch_alphafold_description (o : Nat → AFAttempt) (retries attempt : Nat) :
    List FetchEvent × Option String :=
  fetchAFGo o retries attempt (retries - attempt)

/-- One Pfam/InterPro/GO entry as the script stores it (the third component
— `description` / `type` / `category` — is always the empty string and is
never read, so only accession and name are kept). -/
structure AnnotEntry where
  accession : String
  name : String
  deriving DecidableEq

/-- The MGnify annotation dictionary built by the scraper (lines 55-62):
`sequence_length` is `'N/A'` (`none`) or an `int` (`some n`); `error` is the
optional `'error'` key added on failures. -/
structure MGRecord where
  mgyp_id : String
  sequence_length : Option Nat
  pfam : List AnnotEntry
  interpro : List AnnotEntry
  go_terms : List AnnotEntry
  description : String
  error : Option String
  deriving DecidableEq

/-- The 404 record (lines 133-140). -/
def mgNotFoundRecord (id : String) : MGRecord :=
  ⟨id, none, [], [], [], "Not found in MGnify", none⟩

/-- The exhausted-retries record for a non-200/404 status (lines 143-151). -/
def mgHttpErrorRecord (id : String) (code : Nat) : MGRecord :=
  ⟨id, none, [], [], [], "HTTP Error " ++ Nat.repr code, some ("HTTP " ++ Nat.repr code)⟩

/-- The exhausted-retries record for an exception (lines 157-165). -/
def mgFailedRecord (id msg : String) : MGRecord :=
  ⟨id, none, [], [], [], "Failed: " ++ msg, some msg⟩

/-- One attempt's outcome at the MGnify adapter's network boundary.  `ok ann`
is a 200 response whose HTML the parsing block (lines 54-130) turned into
the record `ann`; `status` is any non-200 status; `exc` covers request and
parse exceptions. -/
inductive MGAttempt
  | ok (ann : MGRecord)
  | status (code : Nat)
  | exc (msg : String)
  deriving DecidableEq

/-- The retry loop of `fetch_mgnify_from_web` from loop index `attempt`:
200 returns the parsed record; 404 returns the not-found record at once;
any other status returns the HTTP-error record on the last attempt and
otherwise retries immediately (the source sleeps only in the exception
handler); an exception returns the failed record on the last attempt and
otherwise sleeps 2 seconds and retries. -/
def fetchMGGo (o : Nat → MGAttempt) (mgypId : String) (retries : Nat) :
    Nat → Nat → List FetchEvent × Option MGRecord
  | _, 0 => ([], none)
  | attempt, fuel + 1 =>
    if attempt < retries then
      match o attempt with
      | MGAttempt.ok ann => ([FetchEvent.call], some ann)
      | MGAttempt.status code =>
        if code = 404 then ([FetchEvent.call], some (mgNotFoundRecord mgypId))
        else if attempt = retries - 1 then
          ([FetchEvent.call], some (mgHttpErrorRecord mgypId code))
        else
          let rest := fetchMGGo o mgypId retries (attempt + 1) fuel
          (FetchEvent.call :: rest.1, rest.2)
      | MGAttempt.exc msg =>
        if attempt = retries - 1 then ([FetchEvent.call], some (mgFailedRecord mgypId msg))
        else
          let rest := fetchMGGo o mgypId retries (attempt + 1) fuel
          (FetchEvent.call :: FetchEvent.sleep 2 :: rest.1, rest.2)
    else ([], none)

def fetch_mgnify_from_web (o : Nat → MGAttempt) (mgypId : String) (retries attempt : Nat) :
    List FetchEvent × Option MGRecord :=
  fetchMGGo o mgypId retries attempt (retries - attempt)

/-- The event trace of `k` attempts that all raise, with a `d`-second sleep
between consecutive attempts. -/
def retryTrace (d : Nat) : Nat → List FetchEvent
  | 0 => []
  | 1 => [FetchEvent.call]
  | k + 2 => FetchEvent.call :: FetchEvent.sleep d :: retryTrace d (k + 1)

/- ### fetch_all_annotations (lines 199-220)

The orchestrator creates one task per identifier, awaits them with
`asyncio.as_completed` (so results arrive in an arbitrary order), appends
each `(identifier, record)` pair to a list and finally builds `dict(results)`.
The fetch itself is abstracted to a function `String → α` (each task returns
its own identifier paired with its record); the nondeterministic completion
order is modelled in the theorems by quantifying over permutations of
`fetchPairs`. -/

/-- The pairs the scheduled tasks deliver, one per identifier, in scheduling
order. -/
def fetchPairs {α : Type} (fetch : String → α) (ids : List String) : List (String × α) :=
  ids.map (fun i => (i, fetch i))

/-- Lookup in `dict(results)`: the value of the last pair with the given
key, `none` when the key is absent. -/
def dictGet {α : Type} : List (String × α) → String → Option α
  | [], _ => none
  | (k, v) :: rest, key =>
    match dictGet rest key with
    | some w => some w
    | none => if k = key then some v else none

/-- Which tasks lines 208-213 create: one AlphaFold task per identifier for
`'alphafold'`, one MGnify task per identifier for `'mgnify'`, and no task at
all for any other selector — the program has no further adapter. -/
inductive FetchTask
  | alphafoldTask (id : String)
  | mgnifyTask (id : String)
  deriving DecidableEq

def orchestratorTasks (database : String) (ids : List String) : List FetchTask :=
  if database = "alphafold" then ids.map FetchTask.alphafoldTask
  else if database = "mgnify" then ids.map FetchTask.mgnifyTask
  else []

/- ### Row mergers (format_annotation_list, lines 222-234;
   merge_alphafold_annotations, lines 236-250;
   merge_mgnify_annotations, lines 252-286) -/

/-- Python `"; ".join(strs)`. -/
def joinStrs (sep : String) : List String → String
  | [] => ""
  | [x] => x
  | x :: xs => x ++ sep ++ joinStrs sep xs

/-- `format_annotation_list`: `"None"` for an empty list, otherwise the
entries rendered `accession (name)` joined by `"; "` (the three type
branches of the source are textually identical). -/
def format_annotation_list (entries : List AnnotEntry) (atype : String) : String :=
  if entries.isEmpty then "None"
  else if atype = "pfam" || atype = "interpro" || atype = "go" then
    joinStrs "; " (entries.map (fun a => a.accession ++ " (" ++ a.name ++ ")"))
  else "None"

/-- How `sequence_length` is rendered into the output cell: the stored
`int` in decimal, or the `'N/A'` placeholder. -/
def seqLenStr : Option Nat → String
  | none => "N/A"
  | some n => Nat.repr n

def afHeader : List String :=
  ["Query_ID", "Target_ID", "UniProt_ID", "Identity", "Length", "Mismatches", "GapOpen",
   "Q_start", "Q_end", "S_start", "S_end", "E-value", "BitScore", "Description"]

def mgHeader : List String :=
  ["Query_ID", "Target_ID", "MGYP_ID", "Identity", "Length", "Mismatches", "GapOpen",
   "Q_start", "Q_end", "S_start", "S_end", "E-value", "BitScore", "Seq_Length",
   "Pfam_Annotations", "InterPro_Annotations", "GO_Terms", "Description"]

/-- Whether a parsed line survives the merge loops' guard
(`len(parts) >= 12`). -/
def validRow (line : String) : Bool := decide (12 ≤ (lineFields line).length)

/-- The data row `merge_alphafold_annotations` writes for the parsed fields
of one surviving line:
`parts[:1] + [target_id, uniprot_id] + parts[2:] + [description]`, with
`descriptions.get(uniprot_id, "No description found")`. -/
def afRowOf (descriptions : String → Option String) (parts : List String) : List String :=
  let target := parts.getD 1 ""
  let uid := afIdent target
  parts.take 1 ++ [target, uid] ++ parts.drop 2 ++
    [(descriptions uid).getD "No description found"]

def mergeRowAF (descriptions : String → Option String) (line : String) :
    Option (List String) :=
  if 12 ≤ (lineFields line).length then some (afRowOf descriptions (lineFields line))
  else none

/-- `merge_alphafold_annotations`, modelled as the list of rows written:
the header followed by one data row per surviving line, in input order. -/
def merge_alphafold_annotations (m8_lines : List String)
    (descriptions : String → Option String) : List (List String) :=
  afHeader :: m8_lines.filterMap (mergeRowAF descriptions)

/-- The identifier `merge_mgnify_annotations` recomputes from the target
token (lines 266-275): the truncated suffix from the first `"MGYP"` when
present — with no length guard, unlike extraction — and the raw token
otherwise. -/
def mgMergeId (target : String) : String :=
  match mgFromMGYP target.data with
  | some l => String.mk (mgTrunc l)
  | none => target

/-- The data row `merge_mgnify_annotations` writes for one surviving line:
`annot = annotations.get(mgyp_id, {})`, then every field is read with a
`.get(..., default)`; a missing key therefore yields
`'N/A' / "None" / "None" / "None" / 'No description'`. -/
def mgRowOf (annots : String → Option MGRecord) (parts : List String) : List String :=
  let target := parts.getD 1 ""
  let mgypId := mgMergeId target
  let cells :=
    match annots mgypId with
    | some a =>
      [seqLenStr a.sequence_length, format_annotation_list a.pfam "pfam",
       format_annotation_list a.interpro "interpro",
       format_annotation_list a.go_terms "go", a.description]
    | none =>
      [seqLenStr none, format_annotation_list [] "pfam",
       format_annotation_list [] "interpro", format_annotation_list [] "go",
       "No description"]
  parts.take 1 ++ [target, mgypId] ++ parts.drop 2 ++ cells

def mergeRowMG (annots : String → Option MGRecord) (line : String) :
    Option (List String) :=
  if 12 ≤ (lineFields line).length then some (mgRowOf annots (lineFields line))
  else none

/-- `merge_mgnify_annotations`, modelled as the list of rows written. -/
def merge_mgnify_annotations (m8_lines : List String)
    (annots : String → Option MGRecord) : List (List String) :=
  mgHeader :: m8_lines.filterMap (mergeRowMG annots)

/- ### main (lines 319-399) -/

/-- How one run of `main` (in annotate mode, with `--database` set) ends:
`crashed` is an uncaught exception — abnormal, non-zero termination — and
`exited out` is a normal return (process status zero), carrying the rows of
the output file when one was written. -/
inductive RunResult
  | crashed
  | exited (output : Option (List (List String)))
  deriving DecidableEq

def isAbnormal : RunResult → Bool
  | RunResult.crashed => true
  | RunResult.exited _ => false

/-- `argparse` `choices` for `--database` (line 341). -/
def databaseChoices : List String := ["alphafold", "mgnify"]

/-- The control flow of `main` after argument parsing.  `none` input models
an unreadable input path: `extract_unique_ids` raises outside any
`try`, so the process aborts (line 364).  An empty identifier list prints a
warning and returns normally (lines 370-372).  The fetch-and-merge block is
wrapped in `try/except` that catches everything and returns normally
(lines 374-399), so an unwritable output path also ends in a zero-status
exit with no output.  Per-identifier fetch results are supplied as resolved
functions (the adapters themselves never raise, see the retry theorems);
the `as_completed` order does not affect `dict(results)` lookups, so the
scheduling-order pairs are used. -/
def mainModel (input : Option (List String)) (database : String)
    (afFetch : String → String) (mgFetch : String → MGRecord)
    (outputWritable : Bool) : RunResult :=
  match input with
  | none => RunResult.crashed
  | some lines =>
    let ids := extract_unique_ids lines database
    if ids.isEmpty then RunResult.exited none
    else if !outputWritable then RunResult.exited none
    else if database = "alphafold" then
      RunResult.exited (some (merge_alphafold_annotations lines
        (dictGet (fetchPairs afFetch ids))))
    else if database = "mgnify" then
      RunResult.exited (some (merge_mgnify_annotations lines
        (dictGet (fetchPairs mgFetch ids))))
    else RunResult.exited none

/- ### Concurrency limiter (asyncio.Semaphore, lines 20-21, 44-45, 201)

Every network call in both adapters happens inside
`async with semaphore: async with session.get(...)`, so a task performs
network I/O only while holding one of the `CONCURRENT_REQUESTS` slots.  The
system is modelled as a step relation on the list of task phases: a task
acquires a slot only when fewer than `limit` tasks are in flight, and a
finished or failed attempt releases the slot (a retry re-acquires it later).
Any interleaving of any number of tasks is a chain of these steps. -/

inductive TaskPhase
  | pending
  | inFlight
  | finished
  deriving DecidableEq

/-- How many tasks currently hold a semaphore slot (are inside the
`async with semaphore` block, i.e. performing network I/O). -/
def inFlightCount (ts : List TaskPhase) : Nat :=
  ts.countP (fun t => t == TaskPhase.inFlight)

/-- One scheduler step under a semaphore of `limit` slots. -/
inductive SemStep (limit : Nat) : List TaskPhase → List TaskPhase → Prop
  | acquire (ts : List TaskPhase) (i : Nat) (hp : ts[i]? = some TaskPhase.pending)
      (hcap : inFlightCount ts < limit) :
      SemStep limit ts (ts.set i TaskPhase.inFlight)
  | complete (ts : List TaskPhase) (i : Nat) (hf : ts[i]? = some TaskPhase.inFlight) :
      SemStep limit ts (ts.set i TaskPhase.finished)
  | backoff (ts : List TaskPhase) (i : Nat) (hf : ts[i]? = some TaskPhase.inFlight) :
      SemStep limit ts (ts.set i TaskPhase.pending)

/- ## Helper lemmas -/

theorem filterMap_mergeRowAF (lines : List String) (descs : String → Option String) :
    lines.filterMap (mergeRowAF descs)
      = (lines.filter validRow).map (fun l => afRowOf descs (lineFields l)) := by
  induction lines with
  | nil => rfl
  | cons l ls ih =>
    by_cases h : 12 ≤ (lineFields l).length
    · simp [List.filterMap_cons, List.filter_cons, mergeRowAF, validRow, h, ih]
    · simp [List.filterMap_cons, List.filter_cons, mergeRowAF, validRow, h, ih]

theorem filterMap_mergeRowMG (lines : List String) (annots : String → Option MGRecord) :
    lines.filterMap (mergeRowMG annots)
      = (lines.filter validRow).map (fun l => mgRowOf annots (lineFields l)) := by
  induction lines with
  | nil => rfl
  | cons l ls ih =>
    by_cases h : 12 ≤ (lineFields l).length
    · simp [List.filterMap_cons, List.filter_cons, mergeRowMG, validRow, h, ih]
    · simp [List.filterMap_cons, List.filter_cons, mergeRowMG, validRow, h, ih]

/- ## C4 -/

/-- C4: after the single header row, each merger writes exactly one data row
per input line whose parsed field list has at least 12 entries, in input
order; shorter lines produce no row.  The output below the header is
literally the valid lines, in order, each mapped to its merged row. -/
theorem merge_row_count_invariant (lines : List String) (descs : String → Option String)
    (annots : String → Option MGRecord) :
    merge_alphafold_annotations lines descs
        = afHeader :: (lines.filter validRow).map (fun l => afRowOf descs (lineFields l))
    ∧ merge_mgnify_annotations lines annots
        = mgHeader :: (lines.filter validRow).map (fun l => mgRowOf annots (lineFields l))
    ∧ (merge_alphafold_annotations lines descs).length = 1 + (lines.filter validRow).length
    ∧ (merge_mgnify_annotations lines annots).length = 1 + (lines.filter validRow).length := by
  refine ⟨?_, ?_, ?_, ?_⟩
  · rw [merge_alphafold_annotations, filterMap_mergeRowAF]
  · rw [merge_mgnify_annotations, filterMap_mergeRowMG]
  · rw [merge_alphafold_annotations, filterMap_mergeRowAF]
    simp [Nat.add_comm]
  · rw [merge_mgnify_annotations, filterMap_mergeRowMG]
    simp [Nat.add_comm]

/- ## C9 -/

/-- C9 counterexample: the `--database` selector admits exactly two values,
`pdb` is not one of them, and the orchestrator creates no task at all for a
`pdb` selector — there is no PDB/GraphQL backend in this program. -/
theorem backend_selector_counterexample :
    databaseChoices.length = 2 ∧ "pdb" ∉ databaseChoices
      ∧ orchestratorTasks "pdb" ["1abc"] = [] := by
  refine ⟨rfl, by decide, rfl⟩

/-- C9 amended: the CLI backend selector is an enum of the two implemented
backends — the AlphaFold JSON API and the MGnify HTML page; no PDB/GraphQL
backend exists, and a selector outside the enum would create no fetch task. -/
theorem backend_selector_enum (db : String) :
    (db ∈ databaseChoices ↔ db = "alphafold" ∨ db = "mgnify")
    ∧ (∀ ids : List String, orchestratorTasks db ids ≠ [] →
        db = "alphafold" ∨ db = "mgnify") := by
  constructor
  · simp [databaseChoices]
  · intro ids h
    by_cases h1 : db = "alphafold"
    · exact Or.inl h1
    · by_cases h2 : db = "mgnify"
      · exact Or.inr h2
      · exact absurd (by simp [orchestratorTasks, h1, h2]) h

/-- Witness for the amended C9 at the concrete selector `pdb`. -/
theorem backend_selector_enum_witness :
    ("pdb" ∈ databaseChoices ↔ "pdb" = "alphafold" ∨ "pdb" = "mgnify") :=
  (backend_selector_enum "pdb").1

/- ## C10 -/

theorem countP_set_step (p : TaskPhase → Bool) (ts : List TaskPhase) (i : Nat)
    (a b : TaskPhase) (h : ts[i]? = some a) :
    (ts.set i b).countP p + (if p a then 1 else 0)
      = ts.countP p + (if p b then 1 else 0) := by
  induction ts generalizing i with
  | nil => simp at h
  | cons t ts ih =>
    cases i with
    | zero =>
      simp only [List.getElem?_cons_zero, Option.some.injEq] at h
      subst h
      simp [List.countP_cons]
      omega
    | succ j =>
      simp only [List.getElem?_cons_succ] at h
      have := ih j h
      simp [List.countP_cons]
      omega

/-- C10: along any interleaving of the scheduler steps, starting from any
number of scheduled tasks, the number of tasks simultaneously inside the
semaphore-guarded network section never exceeds the configured limit. -/
theorem concurrency_bound (limit n : Nat) (ts : List TaskPhase)
    (h : Relation.ReflTransGen (SemStep limit) (List.replicate n TaskPhase.pending) ts) :
    inFlightCount ts ≤ limit := by
  induction h with
  | refl =>
    have h0 : inFlightCount (List.replicate n TaskPhase.pending) = 0 := by
      apply List.countP_eq_zero.mpr
      intro a ha
      rw [List.eq_of_mem_replicate ha]
      simp
    omega
  | tail hsteps hstep ih =>
    cases hstep with
    | acquire i hp hcap =>
      have hc := countP_set_step (fun t => t == TaskPhase.inFlight) _ i _ TaskPhase.inFlight hp
      simp only [inFlightCount] at *
      simp at hc
      omega
    | complete i hf =>
      have hc := countP_set_step (fun t => t == TaskPhase.inFlight) _ i _ TaskPhase.finished hf
      simp only [inFlightCount] at *
      simp at hc
      omega
    | backoff i hf =>
      have hc := countP_set_step (fun t => t == TaskPhase.inFlight) _ i _ TaskPhase.pending hf
      simp only [inFlightCount] at *
      simp at hc
      omega

/-- Witness for C10: a two-task system under limit 1 after one acquire step
stays within the bound. -/
theorem concurrency_bound_witness :
    inFlightCount ((List.replicate 2 TaskPhase.pending).set 0 TaskPhase.inFlight) ≤ 1 :=
  concurrency_bound 1 2 _
    (Relation.ReflTransGen.single (SemStep.acquire _ 0 (by decide) (by decide)))

/- ## Retry-policy lemmas -/

theorem fetchAFGo_isSome (o : Nat → AFAttempt) (r : Nat) :
    ∀ f a, a < r → r - a = f → (fetchAFGo o r a f).2.isSome = true := by
  intro f
  induction f with
  | zero =>
    intro a ha hf
    omega
  | succ k ih =>
    intro a ha hf
    simp only [fetchAFGo]
    rw [if_pos ha]
    cases h : o a with
    | ok body => simp
    | status code => simp
    | exc msg =>
      dsimp only
      by_cases hl : a = r - 1
      · rw [if_pos hl]
        simp
      · rw [if_neg hl]
        simpa using ih (a + 1) (by omega) (by omega)

theorem fetchMGGo_isSome (o : Nat → MGAttempt) (id : String) (r : Nat) :
    ∀ f a, a < r → r - a = f → (fetchMGGo o id r a f).2.isSome = true := by
  intro f
  induction f with
  | zero =>
    intro a ha hf
    omega
  | succ k ih =>
    intro a ha hf
    simp only [fetchMGGo]
    rw [if_pos ha]
    cases h : o a with
    | ok ann => simp
    | status code =>
      dsimp only
      by_cases h404 : code = 404
      · rw [if_pos h404]
        simp
      · rw [if_neg h404]
        by_cases hl : a = r - 1
        · rw [if_pos hl]
          simp
        · rw [if_neg hl]
          simpa using ih (a + 1) (by omega) (by omega)
    | exc msg =>
      dsimp only
      by_cases hl : a = r - 1
      · rw [if_pos hl]
        simp
      · rw [if_neg hl]
        simpa using ih (a + 1) (by omega) (by omega)

theorem fetchAFGo_exc_all (o : Nat → AFAttempt) (m : Nat → String) (r : Nat) :
    ∀ f a, a < r → r - a = f → (∀ i, a ≤ i → i < r → o i = AFAttempt.exc (m i)) →
      fetchAFGo o r a f = (retryTrace 1 f, some ("Failed: " ++ m (r - 1))) := by
  intro f
  induction f with
  | zero =>
    intro a ha hf _
    omega
  | succ k ih =>
    intro a ha hf hall
    simp only [fetchAFGo]
    rw [if_pos ha, hall a le_rfl ha]
    dsimp only
    by_cases hl : a = r - 1
    · rw [if_pos hl]
      have hk : k = 0 := by omega
      subst hk
      rw [hl]
      rfl
    · rw [if_neg hl]
      rw [ih (a + 1) (by omega) (by omega) (fun i h1 h2 => hall i (by omega) h2)]
      obtain ⟨j, rfl⟩ : ∃ j, k = j + 1 := ⟨k - 1, by omega⟩
      rfl

theorem fetchMGGo_status_all (o : Nat → MGAttempt) (id : String) (c : Nat) (r : Nat)
    (hc : c ≠ 404) :
    ∀ f a, a < r → r - a = f → (∀ i, a ≤ i → i < r → o i = MGAttempt.status c) →
      fetchMGGo o id r a f
        = (List.replicate f FetchEvent.call, some (mgHttpErrorRecord id c)) := by
  intro f
  induction f with
  | zero =>
    intro a ha hf _
    omega
  | succ k ih =>
    intro a ha hf hall
    simp only [fetchMGGo]
    rw [if_pos ha, hall a le_rfl ha]
    dsimp only
    rw [if_neg hc]
    by_cases hl : a = r - 1
    · rw [if_pos hl]
      have hk : k = 0 := by omega
      subst hk
      rfl
    · rw [if_neg hl]
      rw [ih (a + 1) (by omega) (by omega) (fun i h1 h2 => hall i (by omega) h2)]
      rfl

theorem fetchMGGo_exc_all (o : Nat → MGAttempt) (id : String) (m : Nat → String) (r : Nat) :
    ∀ f a, a < r → r - a = f → (∀ i, a ≤ i → i < r → o i = MGAttempt.exc (m i)) →
      fetchMGGo o id r a f = (retryTrace 2 f, some (mgFailedRecord id (m (r - 1)))) := by
  intro f
  induction f with
  | zero =>
    intro a ha hf _
    omega
  | succ k ih =>
    intro a ha hf hall
    simp only [fetchMGGo]
    rw [if_pos ha, hall a le_rfl ha]
    dsimp only
    by_cases hl : a = r - 1
    · rw [if_pos hl]
      have hk : k = 0 := by omega
      subst hk
      rw [hl]
      rfl
    · rw [if_neg hl]
      rw [ih (a + 1) (by omega) (by omega) (fun i h1 h2 => hall i (by omega) h2)]
      obtain ⟨j, rfl⟩ : ∃ j, k = j + 1 := ⟨k - 1, by omega⟩
      rfl

/- ## C1 -/

/-- C1 counterexample: with a backend answering HTTP 500 on every attempt
and the default three retries, the AlphaFold adapter is invoked exactly once
— not `max_attempts` times — with no delay, and the returned description is
the immediate `"Error 500"`, not an exhausted-retries `"Failed: ..."`. -/
theorem retry_on_status_counterexample :
    fetch_alphafold_description (fun _ => AFAttempt.status 500) 3 0
        = ([FetchEvent.call], some "Error 500")
    ∧ ¬(fetch_alphafold_description (fun _ => AFAttempt.status 500) 3 0).1.length = 3 := by
  constructor
  · rfl
  · decide

/-- C1 amended: with at least one configured attempt, both adapters always
return a record (no error propagates).  For AlphaFold only exceptions are
retried — with a 1-second sleep between attempts, ending in
`"Failed: {last error}"` — while any non-200 status returns `"Error {code}"`
immediately on the first attempt.  For MGnify a non-200, non-404 status on
every attempt is retried up to the limit with no sleep in between, ending in
the HTTP-error record, and exceptions are retried with a 2-second sleep,
ending in the failed record embedding the last error's text. -/
theorem retry_policy_behavior (r : Nat) (o : Nat → AFAttempt) (om : Nat → MGAttempt)
    (id : String) (c : Nat) (m : Nat → String) (hr : 1 ≤ r) :
    (fetch_alphafold_description o r 0).2.isSome = true
    ∧ (fetch_mgnify_from_web om id r 0).2.isSome = true
    ∧ (o 0 = AFAttempt.status c →
        fetch_alphafold_description o r 0
          = ([FetchEvent.call], some ("Error " ++ Nat.repr c)))
    ∧ ((∀ i, i < r → o i = AFAttempt.exc (m i)) →
        fetch_alphafold_description o r 0
          = (retryTrace 1 r, some ("Failed: " ++ m (r - 1))))
    ∧ (c ≠ 404 → (∀ i, i < r → om i = MGAttempt.status c) →
        fetch_mgnify_from_web om id r 0
          = (List.replicate r FetchEvent.call, some (mgHttpErrorRecord id c)))
    ∧ ((∀ i, i < r → om i = MGAttempt.exc (m i)) →
        fetch_mgnify_from_web om id r 0
          = (retryTrace 2 r, some (mgFailedRecord id (m (r - 1))))) := by
  obtain ⟨k, rfl⟩ : ∃ k, r = k + 1 := ⟨r - 1, by omega⟩
  refine ⟨?_, ?_, ?_, ?_, ?_, ?_⟩
  · exact fetchAFGo_isSome o (k + 1) (k + 1) 0 (by omega) (by omega)
  · exact fetchMGGo_isSome om id (k + 1) (k + 1) 0 (by omega) (by omega)
  · intro h
    show fetchAFGo o (k + 1) 0 (k + 1 - 0) = _
    simp only [Nat.sub_zero, fetchAFGo]
    rw [if_pos (by omega : 0 < k + 1), h]
  · intro hall
    exact fetchAFGo_exc_all o m (k + 1) (k + 1) 0 (by omega) (by omega)
      (fun i _ h2 => hall i h2)
  · intro hc hall
    exact fetchMGGo_status_all om id c (k + 1) hc (k + 1) 0 (by omega) (by omega)
      (fun i _ h2 => hall i h2)
  · intro hall
    exact fetchMGGo_exc_all om id m (k + 1) (k + 1) 0 (by omega) (by omega)
      (fun i _ h2 => hall i h2)

/-- Witness for the amended C1: three attempts that all raise produce three
adapter calls separated by 1-second sleeps and the final failed description. -/
theorem retry_policy_behavior_witness :
    fetch_alphafold_description (fun _ => AFAttempt.exc "boom") 3 0
      = (retryTrace 1 3, some ("Failed: " ++ "boom")) :=
  (retry_policy_behavior 3 (fun _ => AFAttempt.exc "boom") (fun _ => MGAttempt.exc "boom")
      "m" 500 (fun _ => "boom") (by decide)).2.2.2.1 (fun _ _ => rfl)

/- ## C2 -/

/-- C2 counterexample: on an HTTP 404 the AlphaFold adapter does
short-circuit after one call, but its record's description is the generic
`"Error 404"`, not the canonical `"Not found in MGnify"` placeholder the
program uses for a definitive not-found. -/
theorem alphafold_404_counterexample :
    fetch_alphafold_description (fun _ => AFAttempt.status 404) 3 0
        = ([FetchEvent.call], some "Error 404")
    ∧ (mgNotFoundRecord "9xyz").description = "Not found in MGnify"
    ∧ ("Error 404" : String) ≠ "Not found in MGnify" := by
  refine ⟨rfl, rfl, by decide⟩

/-- C2 amended: an HTTP 404 on the first attempt short-circuits both
adapters — exactly one call, no retry, no sleep.  The MGnify record carries
the canonical `"Not found in MGnify"` placeholder description; the AlphaFold
result instead carries the generic `"Error 404"` text. -/
theorem http404_short_circuit (r : Nat) (o : Nat → AFAttempt) (om : Nat → MGAttempt)
    (id : String) (hr : 1 ≤ r) (hAF : o 0 = AFAttempt.status 404)
    (hMG : om 0 = MGAttempt.status 404) :
    fetch_alphafold_description o r 0 = ([FetchEvent.call], some "Error 404")
    ∧ fetch_mgnify_from_web om id r 0 = ([FetchEvent.call], some (mgNotFoundRecord id)) := by
  obtain ⟨k, rfl⟩ : ∃ k, r = k + 1 := ⟨r - 1, by omega⟩
  constructor
  · show fetchAFGo o (k + 1) 0 (k + 1 - 0) = _
    simp only [Nat.sub_zero, fetchAFGo]
    rw [if_pos (by omega : 0 < k + 1), hAF]
    rfl
  · show fetchMGGo om id (k + 1) 0 (k + 1 - 0) = _
    simp only [Nat.sub_zero, fetchMGGo]
    rw [if_pos (by omega : 0 < k + 1), hMG]
    rfl

/-- Witness for the amended C2 at identifier `9xyz` with the default three
retries. -/
theorem http404_short_circuit_witness :
    fetch_alphafold_description (fun _ => AFAttempt.status 404) 3 0
        = ([FetchEvent.call], some "Error 404")
    ∧ fetch_mgnify_from_web (fun _ => MGAttempt.status 404) "9xyz" 3 0
        = ([FetchEvent.call], some (mgNotFoundRecord "9xyz")) :=
  http404_short_circuit 3 (fun _ => AFAttempt.status 404) (fun _ => MGAttempt.status 404)
    "9xyz" (by decide) rfl rfl

/- ## Orchestrator lemmas -/

theorem dictGet_eq_none {α : Type} (l : List (String × α)) (key : String)
    (h : ∀ p ∈ l, p.1 ≠ key) : dictGet l key = none := by
  induction l with
  | nil => rfl
  | cons p rest ih =>
    obtain ⟨k, v⟩ := p
    have hrest : dictGet rest key = none :=
      ih (fun q hq => h q (List.mem_cons_of_mem _ hq))
    simp only [dictGet, hrest]
    exact if_neg (h (k, v) (List.mem_cons_self _ _))

theorem dictGet_mem {α : Type} (l : List (String × α)) (k : String) (v : α)
    (hnd : (l.map Prod.fst).Nodup) (hmem : (k, v) ∈ l) : dictGet l k = some v := by
  induction l with
  | nil => cases hmem
  | cons p rest ih =>
    obtain ⟨k', v'⟩ := p
    rcases List.mem_cons.mp hmem with heq | hmem'
    · rw [Prod.mk.injEq] at heq
      obtain ⟨hk, hv⟩ := heq
      subst hk
      subst hv
      have hnone : dictGet rest k = none := by
        apply dictGet_eq_none
        intro q hq hqk
        have hmem2 : k ∈ rest.map Prod.fst := hqk ▸ List.mem_map_of_mem _ hq
        exact (List.nodup_cons.mp hnd).1 hmem2
      simp [dictGet, hnone]
    · have := ih (List.nodup_cons.mp hnd).2 hmem'
      simp [dictGet, this]

theorem extract_unique_ids_nodup (lines : List String) (db : String) :
    (extract_unique_ids lines db).Nodup :=
  ((List.perm_insertionSort pyLe _).nodup_iff).mpr (List.nodup_dedup _)

/- ## C3 -/

/-- C3: whatever order the scheduled fetches complete in, the resulting
`dict(results)` has exactly one entry per extracted identifier — its keys
are a permutation of the (duplicate-free) query list, lookup of every
queried identifier yields that identifier's fetched record, no other key is
present, and the mapping exists only once all tasks have delivered their
pair (the completed list has exactly one pair per identifier). -/
theorem orchestrator_map_complete {α : Type} (lines : List String) (db : String)
    (fetch : String → α) (completed : List (String × α))
    (hperm : completed.Perm (fetchPairs fetch (extract_unique_ids lines db))) :
    (completed.map Prod.fst).Perm (extract_unique_ids lines db)
    ∧ completed.length = (extract_unique_ids lines db).length
    ∧ (∀ id ∈ extract_unique_ids lines db, dictGet completed id = some (fetch id))
    ∧ (∀ id, id ∉ extract_unique_ids lines db → dictGet completed id = none) := by
  have hkeys : (completed.map Prod.fst).Perm (extract_unique_ids lines db) := by
    have h1 := hperm.map Prod.fst
    simpa [fetchPairs, Function.comp_def] using h1
  have hnd : (completed.map Prod.fst).Nodup :=
    (hkeys.nodup_iff).mpr (extract_unique_ids_nodup lines db)
  refine ⟨hkeys, ?_, ?_, ?_⟩
  · rw [hperm.length_eq]
    simp [fetchPairs]
  · intro id hid
    apply dictGet_mem _ _ _ hnd
    exact hperm.mem_iff.mpr (by
      simp only [fetchPairs, List.mem_map]
      exact ⟨id, hid, rfl⟩)
  · intro id hid
    apply dictGet_eq_none
    intro p hp
    have hp2 := hperm.subset hp
    simp only [fetchPairs, List.mem_map] at hp2
    obtain ⟨i, hi, rfl⟩ := hp2
    intro hcontra
    exact hid (hcontra ▸ hi)

/-- Witness for C3: two identifiers completing in reversed order still give
one entry each, and lookup returns the fetched record. -/
theorem orchestrator_map_complete_witness :
    dictGet [("PB", "PB!"), ("PA", "PA!")] "PA" = some "PA!" :=
  (orchestrator_map_complete ["q\tAF-PA-F1", "q\tAF-PB-F1"] "alphafold"
      (fun i => i ++ "!") [("PB", "PB!"), ("PA", "PA!")] (by decide)).2.2.1 "PA" (by decide)

/- ## C8 -/

/-- C8 counterexample: on an input from which no identifiers are extracted,
`main` prints a warning and returns normally — the process terminates with
status zero, not abnormally — contradicting the claimed non-zero exit. -/
theorem exit_status_counterexample :
    extract_unique_ids ["no identifiers in this line"] "alphafold" = []
    ∧ mainModel (some ["no identifiers in this line"]) "alphafold" (fun _ => "")
        (fun _ => mgFailedRecord "" "") true = RunResult.exited none
    ∧ isAbnormal (mainModel (some ["no identifiers in this line"]) "alphafold" (fun _ => "")
        (fun _ => mgFailedRecord "" "") true) = false := by
  refine ⟨by decide, by decide, by decide⟩

/-- C8 amended: an unreadable input path aborts the run abnormally
(non-zero) with no output written; extracting no identifiers ends the run
with status zero and no output written; an unwritable output path is caught
by the surrounding `try/except` and also ends with status zero and no
output; otherwise the run exits zero having written the merged output. -/
theorem exit_behavior (lines : List String) (db : String) (af : String → String)
    (mg : String → MGRecord) (w : Bool) :
    mainModel none db af mg w = RunResult.crashed
    ∧ (extract_unique_ids lines db = [] →
        mainModel (some lines) db af mg w = RunResult.exited none)
    ∧ (mainModel (some lines) db af mg false = RunResult.exited none)
    ∧ (extract_unique_ids lines "alphafold" ≠ [] →
        mainModel (some lines) "alphafold" af mg true
          = RunResult.exited (some (merge_alphafold_annotations lines
              (dictGet (fetchPairs af (extract_unique_ids lines "alphafold"))))))
    ∧ (extract_unique_ids lines "mgnify" ≠ [] →
        mainModel (some lines) "mgnify" af mg true
          = RunResult.exited (some (merge_mgnify_annotations lines
              (dictGet (fetchPairs mg (extract_unique_ids lines "mgnify")))))) := by
  refine ⟨rfl, ?_, ?_, ?_, ?_⟩
  · intro h
    simp [mainModel, h]
  · by_cases h : (extract_unique_ids lines db).isEmpty
    · simp [mainModel, h]
    · simp [mainModel, h]
  · intro h
    simp only [mainModel]
    rw [if_neg (by simpa [List.isEmpty_iff] using h)]
    rfl
  · intro h
    simp only [mainModel]
    rw [if_neg (by simpa [List.isEmpty_iff] using h)]
    rw [if_neg (by decide : ¬("mgnify" : String) = "alphafold")]
    rfl

/-- Witness for the amended C8: a line with no identifiers ends the run in a
normal zero-status exit with no output. -/
theorem exit_behavior_witness :
    mainModel (some ["xyz"]) "alphafold" (fun _ => "")
      (fun _ => mgFailedRecord "" "") true = RunResult.exited none :=
  (exit_behavior ["xyz"] "alphafold" (fun _ => "") (fun _ => mgFailedRecord "" "") true).2.1
    (by decide)

/- ## Extraction lemmas -/

theorem mem_extract_iff (lines : List String) (db : String) (x : String) :
    x ∈ extract_unique_ids lines db ↔ ∃ line ∈ lines, x ∈ extractLineIds db line := by
  rw [extract_unique_ids]
  rw [(List.perm_insertionSort pyLe _).mem_iff, List.mem_dedup, List.mem_flatten]
  constructor
  · rintro ⟨l, hl, hx⟩
    rw [List.mem_map] at hl
    obtain ⟨line, hline, rfl⟩ := hl
    exact ⟨line, hline, hx⟩
  · rintro ⟨line, hline, hx⟩
    exact ⟨extractLineIds db line, List.mem_map_of_mem _ hline, hx⟩

theorem mem_extractLineIds_alphafold (line x : String) :
    x ∈ extractLineIds "alphafold" line ↔
      2 ≤ (lineFields line).length
        ∧ afMatches ((lineFields line).getD 1 "") = true
        ∧ x = afIdent ((lineFields line).getD 1 "") := by
  unfold extractLineIds
  by_cases h2 : 2 ≤ (lineFields line).length
  · rw [if_pos h2, if_pos rfl]
    by_cases hm : afMatches ((lineFields line).getD 1 "") = true
    · rw [if_pos hm, List.mem_singleton]
      constructor
      · intro hx
        exact ⟨h2, hm, hx⟩
      · rintro ⟨_, _, hx⟩
        exact hx
    · rw [if_neg hm]
      simp only [List.not_mem_nil, false_iff]
      rintro ⟨_, hmm, _⟩
      exact hm hmm
  · rw [if_neg h2]
    simp only [List.not_mem_nil, false_iff]
    rintro ⟨hmm, _, _⟩
    exact h2 hmm

theorem takeWhile_ext (f g : Char → Bool) (h : ∀ c, f c = g c) (l : List Char) :
    l.takeWhile f = l.takeWhile g := by
  induction l with
  | nil => rfl
  | cons c cs ih => rw [List.takeWhile_cons, List.takeWhile_cons, h c, ih]

theorem takeWhile_comp (p q : Char → Bool) (l : List Char) :
    (l.takeWhile q).takeWhile p = l.takeWhile (fun c => q c && p c) := by
  induction l with
  | nil => rfl
  | cons c cs ih =>
    by_cases hq : q c = true
    · by_cases hp : p c = true
      · simp [List.takeWhile_cons, hq, hp, ih]
      · simp [List.takeWhile_cons, hq, hp]
    · simp [List.takeWhile_cons, hq]

theorem mgFromMGYP_shape (l rest : List Char) (h : mgFromMGYP l = some rest) :
    ∃ t, rest = 'M' :: 'G' :: 'Y' :: 'P' :: t := by
  induction l with
  | nil => cases h
  | cons c cs ih =>
    rw [mgFromMGYP] at h
    by_cases hp : "MGYP".data.isPrefixOf (c :: cs) = true
    · rw [if_pos hp] at h
      obtain ⟨t, ht⟩ := List.isPrefixOf_iff_prefix.mp hp
      cases h
      exact ⟨t, by simpa [show "MGYP".data = ['M', 'G', 'Y', 'P'] from rfl] using ht.symm⟩
    · rw [if_neg hp] at h
      exact ih h

theorem mgTrunc_mgyp (t : List Char) :
    mgTrunc ('M' :: 'G' :: 'Y' :: 'P' :: t)
      = 'M' :: 'G' :: 'Y' :: 'P'
          :: t.takeWhile (fun c => !(c == '.' || c == '_' || pyIsSpace c)) := by
  unfold mgTrunc mgTruncDot mgTruncUnd mgSplitWsFirst
  rw [takeWhile_comp]
  rw [List.takeWhile_cons_of_pos (by decide), List.takeWhile_cons_of_pos (by decide),
      List.takeWhile_cons_of_pos (by decide), List.takeWhile_cons_of_pos (by decide)]
  rw [List.dropWhile_cons_of_neg (by decide)]
  rw [List.takeWhile_cons_of_pos (by decide), List.takeWhile_cons_of_pos (by decide),
      List.takeWhile_cons_of_pos (by decide), List.takeWhile_cons_of_pos (by decide)]
  rw [takeWhile_comp]
  congr 4
  apply takeWhile_ext
  intro c
  cases h1 : c == '.' <;> cases h2 : c == '_' <;> cases h3 : pyIsSpace c <;>
    simp [bne, h1, h2, h3]

theorem specMgnifyTrunc_mgyp (t : List Char) :
    specMgnifyTrunc ('M' :: 'G' :: 'Y' :: 'P' :: t)
      = 'M' :: 'G' :: 'Y' :: 'P'
          :: t.takeWhile (fun c => !(c == '.' || c == '_' || pyIsSpace c)) := by
  unfold specMgnifyTrunc
  rw [List.takeWhile_cons_of_pos (by decide), List.takeWhile_cons_of_pos (by decide),
      List.takeWhile_cons_of_pos (by decide), List.takeWhile_cons_of_pos (by decide)]

theorem mgIdentOf_data (target x : String) (h : mgIdentOf target = some x) :
    ∃ t, x.data = 'M' :: 'G' :: 'Y' :: 'P' :: t := by
  rw [mgIdentOf, Option.map_eq_some'] at h
  obtain ⟨rest, hrest, hx⟩ := h
  obtain ⟨t, rfl⟩ := mgFromMGYP_shape _ _ hrest
  rw [mgTrunc_mgyp] at hx
  exact ⟨_, by rw [← hx]⟩

theorem mgGuard_iff_len (target x : String) (h : mgIdentOf target = some x) :
    mgGuard x = true ↔ 4 < x.length := by
  obtain ⟨t, hdata⟩ := mgIdentOf_data target x h
  rw [mgGuard, hdata]
  rw [show List.isPrefixOf "MGYP".data ('M' :: 'G' :: 'Y' :: 'P' :: t) = true by
    simp [List.isPrefixOf]]
  simp

theorem mem_extractLineIds_mgnify (line x : String) :
    x ∈ extractLineIds "mgnify" line ↔
      2 ≤ (lineFields line).length
        ∧ mgIdentOf ((lineFields line).getD 1 "") = some x
        ∧ 4 < x.length := by
  unfold extractLineIds
  by_cases h2 : 2 ≤ (lineFields line).length
  · rw [if_pos h2, if_neg (by decide : ¬("mgnify" : String) = "alphafold"), if_pos rfl]
    cases hid : mgIdentOf ((lineFields line).getD 1 "") with
    | none =>
      dsimp only
      simp only [List.not_mem_nil, false_iff]
      rintro ⟨_, hpx, _⟩
      cases hpx
    | some pid =>
      dsimp only
      by_cases hg : mgGuard pid = true
      · have hlen : 4 < pid.length := (mgGuard_iff_len _ _ hid).mp hg
        rw [if_pos hg, List.mem_singleton]
        constructor
        · rintro rfl
          exact ⟨h2, rfl, hlen⟩
        · rintro ⟨_, hpx, _⟩
          exact (Option.some.inj hpx).symm
      · rw [if_neg hg]
        simp only [List.not_mem_nil, false_iff]
        rintro ⟨_, hpx, hlen⟩
        obtain rfl := Option.some.inj hpx
        exact hg ((mgGuard_iff_len _ _ hid).mpr hlen)
  · rw [if_neg h2]
    simp only [List.not_mem_nil, false_iff]
    rintro ⟨hmm, _, _⟩
    exact h2 hmm

/- ## C5 -/

/-- C5 counterexample: on target token `AF-AF-P1-F1` the script derives
`P1` — `replace("AF-", "")` removes every occurrence of `AF-`, not only the
leading prefix — while the claimed rule (substring strictly between the
leading `AF-` and the first `-F1`) gives `AF-P1`. -/
theorem alphafold_ident_counterexample :
    extract_unique_ids ["q\tAF-AF-P1-F1"] "alphafold" = ["P1"]
    ∧ specAlphafoldIdent "AF-AF-P1-F1" = "AF-P1"
    ∧ ("P1" : String) ≠ "AF-P1" := by
  refine ⟨by decide, by decide, by decide⟩

/-- C5 amended: for AlphaFold, a line with at least 2 tab-separated fields
contributes an identifier exactly when field 1 starts with `AF-` and
contains `-F1`; the identifier is the prefix of the token before the first
`-F1` with every occurrence of `AF-` removed (not only the leading one).
The extractor returns each distinct identifier once, in increasing
lexicographic (code-point) order. -/
theorem alphafold_extraction_characterization (lines : List String) :
    (extract_unique_ids lines "alphafold").Sorted pyLe
    ∧ (extract_unique_ids lines "alphafold").Nodup
    ∧ ∀ x, x ∈ extract_unique_ids lines "alphafold" ↔
        ∃ line ∈ lines, 2 ≤ (lineFields line).length
          ∧ afMatches ((lineFields line).getD 1 "") = true
          ∧ x = afIdent ((lineFields line).getD 1 "") := by
  refine ⟨List.sorted_insertionSort pyLe _, extract_unique_ids_nodup lines "alphafold", ?_⟩
  intro x
  rw [mem_extract_iff]
  constructor
  · rintro ⟨line, hline, hx⟩
    exact ⟨line, hline, (mem_extractLineIds_alphafold line x).mp hx⟩
  · rintro ⟨line, hline, hx⟩
    exact ⟨line, hline, (mem_extractLineIds_alphafold line x).mpr hx⟩

/- ## C6 -/

/-- C6 counterexample: the line `q\tMGYP.7` has 2 fields and its target
contains `MGYP`; the claimed rule derives the identifier `MGYP` (truncation
at the first dot), yet the extractor contributes nothing for it — the
final `len(protein_id) > 4` guard rejects the bare `MGYP`. -/
theorem mgnify_guard_counterexample :
    mgIdentOf "MGYP.7" = some "MGYP"
    ∧ extract_unique_ids ["q\tMGYP.7"] "mgnify" = [] := by
  refine ⟨by decide, by decide⟩

/-- C6 amended: for MGnify, the identifier derived from a token containing
`MGYP` is the suffix from the first `MGYP` occurrence truncated at the
first `.`, `_` or whitespace character (the sequential truncations are
equivalent to cutting at the earliest of the three); a line with at least
2 tab-separated fields contributes that identifier exactly when it is
strictly longer than `MGYP` itself (the guard `len > 4`); all other lines
are skipped without error. -/
theorem mgnify_extraction_characterization (lines : List String) :
    (∀ l rest, mgFromMGYP l = some rest → mgTrunc rest = specMgnifyTrunc rest)
    ∧ ∀ x, x ∈ extract_unique_ids lines "mgnify" ↔
        ∃ line ∈ lines, 2 ≤ (lineFields line).length
          ∧ mgIdentOf ((lineFields line).getD 1 "") = some x
          ∧ 4 < x.length := by
  constructor
  · intro l rest h
    obtain ⟨t, rfl⟩ := mgFromMGYP_shape _ _ h
    rw [mgTrunc_mgyp, specMgnifyTrunc_mgyp]
  · intro x
    rw [mem_extract_iff]
    constructor
    · rintro ⟨line, hline, hx⟩
      exact ⟨line, hline, (mem_extractLineIds_mgnify line x).mp hx⟩
    · rintro ⟨line, hline, hx⟩
      exact ⟨line, hline, (mem_extractLineIds_mgnify line x).mpr hx⟩

/- ## C7 -/

/-- C7 counterexample: in a file whose first row's target `P12345` yields no
identifier under the AlphaFold extraction rule while a later row yields
`P12345`, the merger re-derives `P12345` for the first row and finds it in
the AnnotationMap — the emitted row carries the fetched description
`Hemoglobin`, not the claimed `"No description found"` default. -/
theorem merge_default_counterexample :
    afMatches "P12345" = false
    ∧ ((merge_alphafold_annotations
          ["q\tP12345\ta\tb\tc\td\te\tf\tg\th\ti\tj",
           "q\tAF-P12345-F1\ta\tb\tc\td\te\tf\tg\th\ti\tj"]
          (dictGet (fetchPairs (fun _ => "Hemoglobin")
            (extract_unique_ids
              ["q\tP12345\ta\tb\tc\td\te\tf\tg\th\ti\tj",
               "q\tAF-P12345-F1\ta\tb\tc\td\te\tf\tg\th\ti\tj"] "alphafold")))).getD 1 []).getLast?
        = some "Hemoglobin"
    ∧ ("Hemoglobin" : String) ≠ "No description found" := by
  refine ⟨by decide, by decide, by decide⟩

/-- C7 amended: every parsed row with at least 12 fields is emitted by both
mergers — never dropped — with the identifier cell holding the token as
re-derived by the merge rule; whenever that re-derived identifier is absent
from the AnnotationMap (in particular for rows yielding no identifier whose
re-derived token was never queried), the annotation cells carry the
backend defaults: `"No description found"` for AlphaFold, and
`'N/A'`/`"None"`/`"None"`/`"None"`/`'No description'` for MGnify — the
mergers use lookup-with-default instead of special-casing missing keys. -/
theorem merge_emits_with_defaults (line : String) (descs : String → Option String)
    (annots : String → Option MGRecord)
    (h12 : 12 ≤ (lineFields line).length)
    (haf : descs (afIdent ((lineFields line).getD 1 "")) = none)
    (hmg : annots (mgMergeId ((lineFields line).getD 1 "")) = none) :
    mergeRowAF descs line = some ((lineFields line).take 1
        ++ [(lineFields line).getD 1 "", afIdent ((lineFields line).getD 1 "")]
        ++ (lineFields line).drop 2 ++ ["No description found"])
    ∧ mergeRowMG annots line = some ((lineFields line).take 1
        ++ [(lineFields line).getD 1 "", mgMergeId ((lineFields line).getD 1 "")]
        ++ (lineFields line).drop 2
        ++ ["N/A", "None", "None", "None", "No description"]) := by
  constructor
  · rw [mergeRowAF, if_pos h12, afRowOf]
    rw [haf]
    rfl
  · rw [mergeRowMG, if_pos h12, mgRowOf]
    rw [hmg]
    rfl

/-- Witness for the amended C7 on a 12-field row whose target matches no
backend rule, with an empty AnnotationMap. -/
theorem merge_emits_with_defaults_witness :
    mergeRowAF (fun _ => none) "q\tXYZ\ta\tb\tc\td\te\tf\tg\th\ti\tj"
        = some ["q", "XYZ", "XYZ", "a", "b", "c", "d", "e", "f", "g", "h", "i", "j",
                "No description found"]
    ∧ mergeRowMG (fun _ => none) "q\tXYZ\ta\tb\tc\td\te\tf\tg\th\ti\tj"
        = some ["q", "XYZ", "XYZ", "a", "b", "c", "d", "e", "f", "g", "h", "i", "j",
                "N/A", "None", "None", "None", "No description"] := by
  have h := merge_emits_with_defaults "q\tXYZ\ta\tb\tc\td\te\tf\tg\th\ti\tj"
    (fun _ => none) (fun _ => none) (by decide) rfl rfl
  exact ⟨by rw [h.1]; decide, by rw [h.2]; decide⟩

end FoldseekAnno
